import Mathlib

/-!
Shallow embedding of the DPLL SAT solver in `script.py`.

The Python program works on a CNF formula read from a text file:
`parse_file` builds a set of clauses (tuples of signed integer literals),
`pure_literal` and `remove_unit_clauses` simplify a clause set against a
partial model (a dict from variable id to bool), and `DPLL` is the
recursive search procedure.

Embedding conventions:
* a Python dict is an insertion-ordered association list (`Model`);
  assignment to an existing key updates it in place (`mupdate`);
* Python sets are duplicate-free lists in insertion order (one concrete
  realisation of the unspecified set iteration order);
* `read_clause` / `parse_file` work on the file's lines, each line a
  `List Char`, with Python's `strip`, `rstrip("0")`, `endswith("0")` and
  `split` spelled out character by character;
* exceptions (`ValueError`, `KeyError`) are `Except Unit`;
* the recursion of `DPLL` is driven by explicit fuel (`DPLLf`); the
  result `none` means the fuel ran out, while a Python `return None`
  (falling off the end of the branching loop) is the explicit outcome
  `Res.pyNone`.  Because the Python `model` dict and the clause set are
  mutated in place and aliased across recursive calls, `DPLLf` also
  returns the final state of the model and of the clause-set object it
  was handed (the clause-set object is mutated by `remove_unit_clauses`
  in callees up to their first rebinding at `pure_literal`).
-/

/-- A clause: the Python tuple of signed integer literals. -/
abbrev Clause := List Int

/-- A partial model: insertion-ordered association list mirroring the
Python dict from variable id to boolean. -/
abbrev Model := List (Nat × Bool)

/-- Dict lookup: first binding of the key. -/
def mlookup : Model → Nat → Option Bool
  | [], _ => none
  | (k, b) :: m, v => if k = v then some b else mlookup m v

/-- Dict assignment `model[k] = b`: update in place, else append. -/
def mupdate : Model → Nat → Bool → Model
  | [], k, b => [(k, b)]
  | (k', b') :: m, k, b =>
    if k' = k then (k, b) :: m else (k', b') :: mupdate m k b

/-- Dict membership `k in model`. -/
def mcontains (m : Model) (v : Nat) : Bool := (mlookup m v).isSome

/-- Set membership test on a list-represented set. -/
def elemD {α : Type} [DecidableEq α] (a : α) : List α → Bool
  | [] => false
  | b :: l => if b = a then true else elemD a l

/-- Set removal (`set.discard` / `set.remove`): drop the first occurrence. -/
def eraseD {α : Type} [DecidableEq α] (a : α) : List α → List α
  | [] => []
  | b :: l => if b = a then l else b :: eraseD a l

/-- Set insertion (`set.add`): append if absent. -/
def addSet (l : List Nat) (a : Nat) : List Nat :=
  if elemD a l then l else l ++ [a]

/-- Duplicate-freeness of a list-represented set. -/
def nodupD {α : Type} [DecidableEq α] : List α → Bool
  | [] => true
  | a :: l => !elemD a l && nodupD l

/-! ## Formula loader (`parse_file` with inner generator `read_clause`) -/

/-- Python `str.strip` whitespace test (the characters a text line can hold). -/
def isWS (c : Char) : Bool := c == ' ' || c == '\t' || c == '\r' || c == '\n'

/-- Python `line.strip()`. -/
def stripChars (l : List Char) : List Char :=
  ((l.dropWhile isWS).reverse.dropWhile isWS).reverse

/-- Python `buffer.rstrip("0")`: strip trailing `'0'` characters. -/
def rstripZero (l : List Char) : List Char :=
  (l.reverse.dropWhile (fun c => c == '0')).reverse

/-- Helper for `splitWS`: accumulate the current token reversed. -/
def splitWSAux : List Char → List Char → List (List Char)
  | [], cur => if cur.isEmpty then [] else [cur.reverse]
  | c :: cs, cur =>
    if isWS c then
      if cur.isEmpty then splitWSAux cs [] else cur.reverse :: splitWSAux cs []
    else splitWSAux cs (c :: cur)

/-- Python `str.split()`: split on whitespace runs, dropping empty tokens. -/
def splitWS (l : List Char) : List (List Char) := splitWSAux l []

/-- Decimal digit value of a character, if any. -/
def digitVal (c : Char) : Option Nat :=
  if '0' ≤ c ∧ c ≤ '9' then some (c.toNat - '0'.toNat) else none

/-- Accumulate decimal digits; fails on a non-digit (Python `int` raising). -/
def parseDigitsAux : List Char → Nat → Option Nat
  | [], acc => some acc
  | c :: cs, acc =>
    match digitVal c with
    | some d => parseDigitsAux cs (acc * 10 + d)
    | none => none

/-- Python `int(token)` on a whitespace-free token. -/
def parseTok : List Char → Option Int
  | [] => none
  | '-' :: rest =>
    if rest.isEmpty then none
    else (parseDigitsAux rest 0).map (fun n => -(n : Int))
  | '+' :: rest =>
    if rest.isEmpty then none
    else (parseDigitsAux rest 0).map (fun n => (n : Int))
  | l => (parseDigitsAux l 0).map (fun n => (n : Int))

/-- Python `map(int, tokens)`, failing if any token fails. -/
def parseToks : List (List Char) → Option (List Int)
  | [] => some []
  | t :: ts =>
    match parseTok t, parseToks ts with
    | some i, some l => some (i :: l)
    | _, _ => none

/-- View a list of newline-free line strings as lists of characters. -/
def linesOf (l : List String) : List (List Char) := l.map String.toList

/-- The loop of `parse_file` over `read_clause`: consume lines, keeping a
buffer of the clause text accumulated so far; a stripped line whose last
character is `'0'` terminates the clause, whose text is `rstrip`ped of
trailing `'0'` characters, split and parsed; a clause with a literal of
absolute value above `nbLit` raises `ValueError`; the parsed tuple is
added to the clause set and reading stops once `declaredCount` distinct
clauses are held. -/
def parseClauses : List (List Char) → List Char → Int → List Clause → Int →
    Except Unit (List Clause)
  | [], _, _, cnf, _ => .ok cnf
  | line :: rest, buffer, nbLit, cnf, nbClauses =>
    let s := stripChars line
    if s.isEmpty then parseClauses rest buffer nbLit cnf nbClauses
    else
      let buf := buffer ++ s
      if s.getLast? == some '0' then
        match parseToks (splitWS (rstripZero buf)) with
        | none => .error ()
        | some lits =>
          if lits.any (fun l => (l.natAbs : Int) > nbLit) then .error ()
          else
            let cnf1 := if elemD lits cnf then cnf else cnf ++ [lits]
            if (cnf1.length : Int) ≥ nbClauses then .ok cnf1
            else parseClauses rest [] nbLit cnf1 nbClauses
      else parseClauses rest (buf ++ [' ']) nbLit cnf nbClauses

/-- The header line `nb_clauses, nb_lit = map(int, f.readline().strip().split())`:
exactly two integer tokens, else a `ValueError`. -/
def parseHeader (h : List Char) : Option (Int × Int) :=
  match splitWS (stripChars h) with
  | [a, b] =>
    match parseTok a, parseTok b with
    | some nbClauses, some nbLit => some (nbClauses, nbLit)
    | _, _ => none
  | _ => none

/-- Python `parse_file`: read the `declaredCount maxVar` header from the
first line, then the clauses; returns the clause set, the header numbers
and whether the truncation warning fired (`len(cnf) < nb_clauses`). -/
def parse_file (lines : List (List Char)) :
    Except Unit (List Clause × Int × Int × Bool) :=
  match lines with
  | [] => .error ()
  | h :: rest =>
    match parseHeader h with
    | none => .error ()
    | some p =>
      match parseClauses rest [] p.2 [] p.1 with
      | .error e => .error e
      | .ok cnf => .ok (cnf, p.1, p.2, decide ((cnf.length : Int) < p.1))

/-! ## Pure-literal elimination (`pure_literal`) -/

/-- State of the polarity scan in `pure_literal`: the `polarity` dict,
the `new_symb` set and the `pure_literals` set. -/
structure ScanSt where
  pol : Model
  newSymb : List Nat
  pures : List Nat

/-- One literal of the scan `for clause in cnf: for lit in clause`. -/
def plStep (symT : Bool) (st : ScanSt) (lit : Int) : ScanSt :=
  match mlookup st.pol lit.natAbs with
  | none =>
    { pol := st.pol ++ [(lit.natAbs, decide (0 < lit))]
      newSymb := if symT then st.newSymb else addSet st.newSymb lit.natAbs
      pures := if symT then st.pures else addSet st.pures lit.natAbs }
  | some b =>
    if b ≠ decide (0 < lit) then { st with pures := eraseD lit.natAbs st.pures }
    else st

/-- Scan one clause. -/
def plScanClause (symT : Bool) (st : ScanSt) (c : Clause) : ScanSt :=
  c.foldl (plStep symT) st

/-- Scan the whole clause set. -/
def plScan (symT : Bool) (st : ScanSt) (cnf : List Clause) : ScanSt :=
  cnf.foldl (plScanClause symT) st

/-- The loop `for lit in pure_literals: model[lit] = polarity[lit]`;
a variable absent from `polarity` raises `KeyError`. -/
def assignPures : List Nat → Model → Model → Except Unit Model
  | [], _, m => .ok m
  | v :: vs, pol, m =>
    match mlookup pol v with
    | none => .error ()
    | some b => assignPures vs pol (mupdate m v b)

/-- Python truthiness of the `symbols` argument (`None` and the empty
set are both falsy). -/
def symbolsTruthy : Option (List Nat) → Bool
  | none => false
  | some l => !l.isEmpty

/-- Initial scan state: `polarity = {}`, and `new_symb`/`pure_literals`
both `set()` when `symbols` is falsy, else copies of `symbols`. -/
def plInitSt (symbols : Option (List Nat)) : ScanSt :=
  { pol := []
    newSymb := if symbolsTruthy symbols then symbols.getD [] else []
    pures := if symbolsTruthy symbols then symbols.getD [] else [] }

/-- Scan state after the polarity loop of `pure_literal`. -/
def plStState (cnf : List Clause) (symbols : Option (List Nat)) : ScanSt :=
  plScan (symbolsTruthy symbols) (plInitSt symbols) cnf

/-- Python `pure_literal(cnf, symbols, model)`.  Returns the sentinel
`(none, none)` on an empty clause set, otherwise the filtered clause
set and updated symbol set, along with the mutated model. -/
def pure_literal (cnf : List Clause) (symbols : Option (List Nat)) (model : Model) :
    Except Unit (Option (List Clause) × Option (List Nat) × Model) :=
  if cnf.isEmpty then .ok (none, none, model)
  else
    match assignPures (plStState cnf symbols).pures (plStState cnf symbols).pol model with
    | .error e => .error e
    | .ok m' =>
      .ok (some (cnf.filter
             (fun c => !c.any (fun l => elemD l.natAbs (plStState cnf symbols).pures))),
           some ((plStState cnf symbols).newSymb.filter
             (fun v => !elemD v (plStState cnf symbols).pures)), m')

/-! ## Unit propagation (`remove_unit_clauses`) -/

/-- The for/else body: a clause forces a unit exactly when it has exactly
one literal whose variable is not yet in the model. -/
def unitOf (c : Clause) (m : Model) : Option Int :=
  match c.filter (fun l => !mcontains m l.natAbs) with
  | [l] => some l
  | _ => none

/-- Scan the snapshot of the clause set; on the first unit found, assign
it, remove that clause and stop. -/
def rucAux : List Clause → List Clause → Model → Bool × List Clause × Model
  | [], orig, m => (false, orig, m)
  | c :: rest, orig, m =>
    match unitOf c m with
    | some u => (true, eraseD c orig, mupdate m u.natAbs (decide (0 < u)))
    | none => rucAux rest orig m

/-- Python `remove_unit_clauses(clauses, model)`; the returned clause set
and model are the mutated objects. -/
def remove_unit_clauses (clauses : List Clause) (model : Model) :
    Bool × List Clause × Model :=
  rucAux clauses clauses model

/-! ## The search procedure (`DPLL`) -/

/-- Value of `i in model and model[i]`-style key probes: a negative key
never matches the non-negative keys the program stores. -/
def inModelVal (m : Model) (i : Int) : Option Bool :=
  if i < 0 then none else mlookup m i.toNat

/-- The per-literal test of the satisfaction check in `DPLL`:
`litteral in model and model[litteral] or -litteral in model and not
model[-litteral]`. -/
def litSat (m : Model) (l : Int) : Bool :=
  (match inModelVal m l with | some b => b | none => false) ||
  (match inModelVal m (-l) with | some b => !b | none => false)

/-- The four ways the Python `DPLL` call can come back: `(True, None)`,
`(True, model)`, `(False, model)`, a bare `None` (falling off the end of
the branching loop), or a propagated `KeyError` from `pure_literal`. -/
inductive Res where
  | satNone
  | satModel
  | unsatModel
  | pyNone
  | keyError
deriving DecidableEq

/-- Python `DPLL(clauses, symbols, model)` with explicit fuel (`none`
means the fuel ran out; every concrete evaluation below carries enough).
The second component of the result is the final state of the (single,
mutated-in-place) model; the third is the final state of the clause-set
object the caller passed, which callees mutate through
`remove_unit_clauses` until they rebind it at the `pure_literal` line. -/
def DPLLf : Nat → List Clause → Option (List Nat) → Model →
    Option (Res × Model × List Clause)
  | 0, _, _, _ => none
  | fuel + 1, clauses, symbols, model =>
    if clauses.isEmpty then some (.satNone, model, clauses)
    else if !model.isEmpty && clauses.all (fun c => c.any (litSat model)) then
      some (.satModel, model, clauses)
    else if symbols.isSome && model.length == (symbols.getD []).length then
      some (.unsatModel, model, clauses)
    else
      match remove_unit_clauses clauses model with
      | (true, clauses1, model1) => DPLLf fuel clauses1 symbols model1
      | (false, _, _) =>
        match pure_literal clauses symbols model with
        | .error _ => some (.keyError, model, clauses)
        | .ok (clO, syO, model1) =>
          if (clO.getD []).isEmpty then some (.satModel, model1, clauses)
          else
            match (syO.getD []).filter (fun s => !mcontains model1 s) with
            | [] => some (.pyNone, model1, clauses)
            | s :: _ =>
              match DPLLf fuel (clO.getD []) syO (mupdate model1 s true) with
              | none => none
              | some (.keyError, model3, _) => some (.keyError, model3, clauses)
              | some (.pyNone, model3, cl3) =>
                match DPLLf fuel cl3 syO (mupdate model3 s false) with
                | none => none
                | some (r2, model5, _) => some (r2, model5, clauses)
              | some (_, model3, _) => some (.satModel, model3, clauses)

/-! ## Specification-side predicates about occurrences and purity -/

/-- Sign of a literal as Python computes it (`lit > 0`). -/
def litPos (l : Int) : Bool := decide (0 < l)

/-- Variable `v` occurs in a flat list of literals. -/
def foccurs (ls : List Int) (v : Nat) : Bool :=
  ls.any (fun l => decide (l.natAbs = v))

/-- Variable `v` occurs with sign `s` in a flat list of literals. -/
def fwith (ls : List Int) (v : Nat) (s : Bool) : Bool :=
  ls.any (fun l => decide (l.natAbs = v) && (litPos l == s))

/-- Sign of the first occurrence of variable `v`, if any. -/
def ffirst : List Int → Nat → Option Bool
  | [], _ => none
  | l :: ls, v => if l.natAbs = v then some (litPos l) else ffirst ls v

/-- All literals of a clause set, in scan order. -/
def joinC : List Clause → List Int
  | [] => []
  | c :: cs => c ++ joinC cs

/-- Variable `v` occurs somewhere in the clause set. -/
def occursIn (cnf : List Clause) (v : Nat) : Bool :=
  cnf.any (fun c => foccurs c v)

/-- Variable `v` occurs with sign `s` somewhere in the clause set. -/
def occursWith (cnf : List Clause) (v : Nat) (s : Bool) : Bool :=
  cnf.any (fun c => fwith c v s)

/-- Variable `v` is pure in the clause set: it occurs, and not with both
signs.  For a pure `v`, `occursWith cnf v true` is the single sign, i.e.
the polarity making every occurrence true. -/
def pureB (cnf : List Clause) (v : Nat) : Bool :=
  occursIn cnf v && !(occursWith cnf v true && occursWith cnf v false)

/-- The precondition of the `pure_literal` contract on its `symbols`
argument: either not yet established (`none`), or a non-empty
duplicate-free set holding exactly the variables of the clause set. -/
def symbolsGood (cnf : List Clause) : Option (List Nat) → Prop
  | none => True
  | some l => l ≠ [] ∧ nodupD l = true ∧ ∀ v, elemD v l = occursIn cnf v

/-! ## Lemmas about the association-list and set primitives -/

lemma mlookup_append_some {m1 : Model} {v : Nat} {b : Bool}
    (h : mlookup m1 v = some b) (m2 : Model) : mlookup (m1 ++ m2) v = some b := by
  induction m1 with
  | nil => simp [mlookup] at h
  | cons kb m ih =>
    obtain ⟨k, b'⟩ := kb
    by_cases hk : k = v
    · simp [mlookup, hk] at h ⊢; exact h
    · simp [mlookup, hk] at h ⊢; exact ih h

lemma mlookup_append_none {m1 : Model} {v : Nat}
    (h : mlookup m1 v = none) (m2 : Model) : mlookup (m1 ++ m2) v = mlookup m2 v := by
  induction m1 with
  | nil => simp
  | cons kb m ih =>
    obtain ⟨k, b'⟩ := kb
    by_cases hk : k = v
    · simp [mlookup, hk] at h
    · simp [mlookup, hk] at h ⊢; exact ih h

lemma mlookup_mupdate_self (m : Model) (k : Nat) (b : Bool) :
    mlookup (mupdate m k b) k = some b := by
  induction m with
  | nil => simp [mupdate, mlookup]
  | cons kb m ih =>
    obtain ⟨k', b'⟩ := kb
    by_cases hk : k' = k <;> simp [mupdate, hk, mlookup, ih]


lemma mlookup_mupdate_ne (m : Model) {k v : Nat} (h : v ≠ k) (b : Bool) :
    mlookup (mupdate m k b) v = mlookup m v := by
  have hkv : ¬k = v := fun hh => h hh.symm
  induction m with
  | nil => simp [mupdate, mlookup, hkv]
  | cons kb m ih =>
    obtain ⟨k', b'⟩ := kb
    by_cases hk : k' = k
    · subst hk
      simp [mupdate, mlookup, hkv]
    · simp [mupdate, hk, mlookup, ih]

lemma elemD_append {α : Type} [DecidableEq α] (a : α) (l1 l2 : List α) :
    elemD a (l1 ++ l2) = (elemD a l1 || elemD a l2) := by
  induction l1 with
  | nil => simp [elemD]
  | cons b l ih =>
    by_cases hb : b = a <;> simp [elemD, hb, ih]

lemma elemD_addSet (l : List Nat) (a v : Nat) :
    elemD v (addSet l a) = (elemD v l || decide (a = v)) := by
  by_cases hav : a = v
  · subst hav
    by_cases h : elemD a l = true
    · simp [addSet, h]
    · have h' : elemD a l = false := by simpa using h
      simp [addSet, h', elemD_append, elemD]
  · by_cases h : elemD a l = true
    · simp [addSet, h, hav]
    · have h' : elemD a l = false := by simpa using h
      simp [addSet, h', elemD_append, elemD, hav]

lemma elemD_of_eraseD {α : Type} [DecidableEq α] {l : List α} {a v : α}
    (h : elemD v (eraseD a l) = true) : elemD v l = true := by
  induction l with
  | nil => simp [eraseD, elemD] at h
  | cons b l ih =>
    by_cases hba : b = a
    · simp only [eraseD, if_pos hba] at h
      by_cases hbv : b = v
      · simp [elemD, hbv]
      · simp [elemD, hbv, h]
    · simp only [eraseD, if_neg hba] at h
      by_cases hbv : b = v
      · simp [elemD, hbv]
      · simp only [elemD, if_neg hbv] at h ⊢
        exact ih h

lemma elemD_eraseD {α : Type} [DecidableEq α] {l : List α}
    (hnd : nodupD l = true) (a v : α) :
    elemD v (eraseD a l) = (elemD v l && !(decide (v = a))) := by
  induction l with
  | nil => simp [eraseD, elemD]
  | cons b l ih =>
    have hx : elemD b l = false ∧ nodupD l = true := by
      simpa [nodupD, Bool.and_eq_true, Bool.not_eq_true'] using hnd
    by_cases hba : b = a
    · simp only [eraseD, if_pos hba]
      by_cases hva : v = a
      · have hvb : v = b := hva.trans hba.symm
        have h1 : elemD v l = false := by rw [hvb]; exact hx.1
        rw [hva] at h1
        simp [h1, hva]
      · have hbv : ¬b = v := fun hh => hva (hh.symm.trans hba)
        simp [elemD, hbv, hva]
    · simp only [eraseD, if_neg hba]
      by_cases hbv : b = v
      · have hva : ¬v = a := fun hh => hba (hbv.trans hh)
        simp [elemD, hbv, hva]
      · simp [elemD, hbv, ih hx.2]

lemma nodup_append_single {α : Type} [DecidableEq α] {l : List α} {a : α}
    (hnd : nodupD l = true) (ha : elemD a l = false) : nodupD (l ++ [a]) = true := by
  induction l with
  | nil => simp [nodupD, elemD]
  | cons b l ih =>
    have hx : elemD b l = false ∧ nodupD l = true := by
      simpa [nodupD, Bool.and_eq_true, Bool.not_eq_true'] using hnd
    have hy : ¬b = a ∧ elemD a l = false := by
      by_cases hba : b = a
      · simp [elemD, hba] at ha
      · constructor
        · exact hba
        · simpa [elemD, hba] using ha
    have hab : ¬a = b := fun hh => hy.1 hh.symm
    have h1 : elemD b [a] = false := by simp [elemD, hab]
    simp [nodupD, elemD_append, hx.1, h1, ih hx.2 hy.2]

lemma nodup_addSet (l : List Nat) (a : Nat) (hnd : nodupD l = true) :
    nodupD (addSet l a) = true := by
  by_cases h : elemD a l = true
  · simpa [addSet, h] using hnd
  · have h' : elemD a l = false := by simpa using h
    simpa [addSet, h'] using nodup_append_single hnd h'

lemma nodup_eraseD {α : Type} [DecidableEq α] {l : List α} (a : α)
    (hnd : nodupD l = true) : nodupD (eraseD a l) = true := by
  induction l with
  | nil => simp [eraseD, nodupD]
  | cons b l ih =>
    have hx : elemD b l = false ∧ nodupD l = true := by
      simpa [nodupD, Bool.and_eq_true, Bool.not_eq_true'] using hnd
    by_cases hba : b = a
    · simpa [eraseD, hba] using hx.2
    · have hb : elemD b (eraseD a l) = false := by
        cases he : elemD b (eraseD a l) with
        | false => rfl
        | true =>
          have hcontra := elemD_of_eraseD he
          simp [hx.1] at hcontra
      simp [eraseD, hba, nodupD, hb, ih hx.2]

lemma elemD_filter {α : Type} [DecidableEq α] (p : α → Bool) (l : List α) (v : α) :
    elemD v (l.filter p) = (elemD v l && p v) := by
  induction l with
  | nil => simp [elemD]
  | cons b l ih =>
    by_cases hb : b = v
    · subst hb
      by_cases hp : p b = true
      · simp [List.filter, hp, elemD, ih]
      · have hp' : p b = false := by simpa using hp
        simp [List.filter, hp', elemD, ih]
    · by_cases hp : p b = true
      · simp [List.filter, hp, elemD, hb, ih]
      · have hp' : p b = false := by simpa using hp
        simp [List.filter, hp', elemD, hb, ih]

/-! ## Lemmas about occurrence predicates -/

lemma foccurs_append (p q : List Int) (v : Nat) :
    foccurs (p ++ q) v = (foccurs p v || foccurs q v) := by
  simp [foccurs, List.any_append]

lemma fwith_append (p q : List Int) (v : Nat) (s : Bool) :
    fwith (p ++ q) v s = (fwith p v s || fwith q v s) := by
  simp [fwith, List.any_append]

lemma fwith_single (l : Int) (v : Nat) (s : Bool) :
    fwith [l] v s = (decide (l.natAbs = v) && (litPos l == s)) := by
  simp [fwith]

lemma foccurs_single (l : Int) (v : Nat) :
    foccurs [l] v = decide (l.natAbs = v) := by
  simp [foccurs]

lemma ffirst_append_some {p : List Int} {v : Nat} {b : Bool}
    (h : ffirst p v = some b) (q : List Int) : ffirst (p ++ q) v = some b := by
  induction p with
  | nil => simp [ffirst] at h
  | cons l p ih =>
    by_cases hl : l.natAbs = v
    · simp only [ffirst, if_pos hl] at h ⊢; exact h
    · simp only [ffirst, if_neg hl] at h ⊢; exact ih h

lemma ffirst_append_none {p : List Int} {v : Nat}
    (h : ffirst p v = none) (q : List Int) : ffirst (p ++ q) v = ffirst q v := by
  induction p with
  | nil => simp
  | cons l p ih =>
    by_cases hl : l.natAbs = v
    · simp [ffirst, hl] at h
    · simp only [ffirst, if_neg hl] at h ⊢; exact ih h

lemma ffirst_none_iff (p : List Int) (v : Nat) :
    ffirst p v = none ↔ foccurs p v = false := by
  induction p with
  | nil => simp [ffirst, foccurs]
  | cons l p ih =>
    by_cases hl : l.natAbs = v
    · simp [ffirst, foccurs, hl]
    · simp [ffirst, foccurs, hl, ih]

lemma ffirst_isSome_of_foccurs {p : List Int} {v : Nat}
    (h : foccurs p v = true) : (ffirst p v).isSome = true := by
  cases hf : ffirst p v with
  | none => rw [(ffirst_none_iff p v).mp hf] at h; cases h
  | some b => rfl

lemma ffirst_some_fwith {p : List Int} {v : Nat} {b : Bool}
    (h : ffirst p v = some b) : fwith p v b = true := by
  induction p with
  | nil => simp [ffirst] at h
  | cons l p ih =>
    by_cases hl : l.natAbs = v
    · simp only [ffirst, if_pos hl, Option.some_inj] at h
      subst h
      simp [fwith, List.any_cons, hl]
    · simp only [ffirst, if_neg hl] at h
      have := ih h
      simp [fwith, List.any_cons, hl] at this ⊢
      exact this

lemma fwith_foccurs {p : List Int} {v : Nat} {s : Bool}
    (h : fwith p v s = true) : foccurs p v = true := by
  simp only [fwith, List.any_eq_true, Bool.and_eq_true, decide_eq_true_eq] at h
  obtain ⟨l, hl, hv, _⟩ := h
  simp only [foccurs, List.any_eq_true, decide_eq_true_eq]
  exact ⟨l, hl, hv⟩

lemma foccurs_false_fwith {p : List Int} {v : Nat} (h : foccurs p v = false)
    (s : Bool) : fwith p v s = false := by
  cases hf : fwith p v s with
  | false => rfl
  | true => rw [fwith_foccurs hf] at h; cases h

lemma pure_ffirst {ls : List Int} {v : Nat}
    (hocc : foccurs ls v = true)
    (hpure : fwith ls v true = false ∨ fwith ls v false = false) :
    ffirst ls v = some (fwith ls v true) := by
  induction ls with
  | nil => simp [foccurs] at hocc
  | cons l ls ih =>
    by_cases hl : l.natAbs = v
    · simp only [ffirst, if_pos hl, Option.some_inj]
      cases hs : litPos l with
      | true =>
        simp [fwith, List.any_cons, hl, hs]
      | false =>
        have hwf : fwith (l :: ls) v false = true := by
          simp [fwith, List.any_cons, hl, hs]
        have hwt : fwith (l :: ls) v true = false := by
          cases hpure with
          | inl h => exact h
          | inr h => rw [hwf] at h; cases h
        rw [hwt]
    · have hocc' : foccurs ls v = true := by
        simpa [foccurs, List.any_cons, hl] using hocc
      have hw : ∀ s, fwith (l :: ls) v s = fwith ls v s := by
        intro s
        simp [fwith, List.any_cons, hl]
      have hpure' : fwith ls v true = false ∨ fwith ls v false = false := by
        rw [← hw true, ← hw false]; exact hpure
      simp only [ffirst, if_neg hl, hw true]
      exact ih hocc' hpure'

/-! ## The polarity-scan invariant of `pure_literal` -/

/-- The domain tracked by `new_symb` during the scan: the incoming set
when `symbols` was truthy, else the variables seen so far. -/
def nsB (symT : Bool) (sy : List Nat) (p : List Int) (v : Nat) : Bool :=
  if symT then elemD v sy else foccurs p v

/-- Invariant of the scan state after processing the flat literal list
`p`: `polarity` is the first-occurrence sign map, `new_symb` tracks the
domain, and `pure_literals` holds the domain members not yet seen with
two different signs. -/
def ScanInv (symT : Bool) (sy : List Nat) (p : List Int) (st : ScanSt) : Prop :=
  (∀ v, mlookup st.pol v = ffirst p v) ∧
  (∀ v, elemD v st.newSymb = nsB symT sy p v) ∧
  (∀ v, elemD v st.pures = (nsB symT sy p v && !(fwith p v true && fwith p v false))) ∧
  nodupD st.newSymb = true ∧ nodupD st.pures = true

lemma plStep_inv {symT : Bool} {sy : List Nat} {p : List Int} {st : ScanSt}
    (l : Int) (h : ScanInv symT sy p st) :
    ScanInv symT sy (p ++ [l]) (plStep symT st l) := by
  obtain ⟨h1, h2, h3, h4, h5⟩ := h
  have hfo : ∀ v, foccurs (p ++ [l]) v = (foccurs p v || decide (l.natAbs = v)) := by
    intro v; rw [foccurs_append, foccurs_single]
  have hfw : ∀ v s, fwith (p ++ [l]) v s =
      (fwith p v s || (decide (l.natAbs = v) && (litPos l == s))) := by
    intro v s; rw [fwith_append, fwith_single]
  cases hpol : mlookup st.pol l.natAbs with
  | none =>
    have hfnone : ffirst p l.natAbs = none := (h1 l.natAbs).symm.trans hpol
    have hocc : foccurs p l.natAbs = false := (ffirst_none_iff _ _).mp hfnone
    have hwf : ∀ s, fwith p l.natAbs s = false := foccurs_false_fwith hocc
    have hnsB : ∀ v, nsB symT sy (p ++ [l]) v =
        (nsB symT sy p v || (!symT && decide (l.natAbs = v))) := by
      intro v
      cases symT with
      | true => simp [nsB]
      | false => simp [nsB, hfo]
    refine ⟨?_, ?_, ?_, ?_, ?_⟩
    · intro v
      simp only [plStep, hpol]
      cases hf : ffirst p v with
      | some c =>
        have hl : mlookup st.pol v = some c := (h1 v).trans hf
        rw [mlookup_append_some hl, ffirst_append_some hf]
      | none =>
        have hl : mlookup st.pol v = none := (h1 v).trans hf
        rw [mlookup_append_none hl, ffirst_append_none hf]
        simp [mlookup, ffirst, litPos]
    · intro v
      simp only [plStep, hpol]
      rw [hnsB v]
      cases symT with
      | true => simp [h2 v]
      | false => simp [elemD_addSet, h2 v]
    · intro v
      simp only [plStep, hpol]
      rw [hnsB v]
      by_cases hv : l.natAbs = v
      · subst hv
        have hwnew : ∀ s, fwith (p ++ [l]) l.natAbs s = (litPos l == s) := by
          intro s; rw [hfw]; simp [hwf]
        rw [hwnew true, hwnew false]
        have hprod : ((litPos l == true) && (litPos l == false)) = false := by
          cases hx : litPos l <;> simp
        rw [hprod]
        cases symT with
        | true =>
          simp only [Bool.not_false, Bool.and_true, if_true]
          rw [h3 l.natAbs]
          simp [hwf, nsB]
        | false =>
          simp [elemD_addSet]
      · have hd : decide (l.natAbs = v) = false := by simp [hv]
        have hwold : ∀ s, fwith (p ++ [l]) v s = fwith p v s := by
          intro s; rw [hfw]; simp [hd]
        rw [hwold true, hwold false, hd]
        cases symT with
        | true => simp [h3 v]
        | false => simp [elemD_addSet, hd, h3 v]
    · simp only [plStep, hpol]
      cases symT with
      | true => simpa using h4
      | false => simpa using nodup_addSet _ _ h4
    · simp only [plStep, hpol]
      cases symT with
      | true => simpa using h5
      | false => simpa using nodup_addSet _ _ h5
  | some b =>
    have hfsome : ffirst p l.natAbs = some b := (h1 l.natAbs).symm.trans hpol
    have hocc : foccurs p l.natAbs = true := by
      cases hc : foccurs p l.natAbs with
      | true => rfl
      | false =>
        rw [(ffirst_none_iff _ _).mpr hc] at hfsome; cases hfsome
    have hwb : fwith p l.natAbs b = true := ffirst_some_fwith hfsome
    have hnsB : ∀ v, nsB symT sy (p ++ [l]) v = nsB symT sy p v := by
      intro v
      cases symT with
      | true => simp [nsB]
      | false =>
        simp only [nsB, hfo, Bool.if_false_left]
        by_cases hv : l.natAbs = v
        · subst hv; simp [hocc]
        · simp [hv]
    have hpolGoal : ∀ v, mlookup st.pol v = ffirst (p ++ [l]) v := by
      intro v
      cases hf : ffirst p v with
      | some c => rw [ffirst_append_some hf]; exact (h1 v).trans hf
      | none =>
        rw [ffirst_append_none hf, h1 v, hf]
        have hwidth : ¬l.natAbs = v := by
          intro hh
          rw [hh, hf] at hfsome; cases hfsome
        simp [ffirst, hwidth]
    by_cases hbe : b = decide (0 < l)
    · have hcond : ¬b ≠ decide (0 < l) := fun hh => hh hbe
      have hlp : litPos l = b := by rw [litPos, ← hbe]
      have hkeep : ∀ v,
          (fwith (p ++ [l]) v true && fwith (p ++ [l]) v false) =
          (fwith p v true && fwith p v false) := by
        intro v
        by_cases hv : l.natAbs = v
        · subst hv
          rw [hfw, hfw]
          cases hb2 : b with
          | true =>
            rw [hb2] at hwb hlp
            simp [hwb, hlp]
          | false =>
            rw [hb2] at hwb hlp
            simp [hwb, hlp]
        · have hd : decide (l.natAbs = v) = false := by simp [hv]
          rw [hfw, hfw, hd]
          simp
      refine ⟨?_, ?_, ?_, ?_, ?_⟩
      · intro v
        simp only [plStep, hpol, if_neg hcond]
        exact hpolGoal v
      · intro v
        simp only [plStep, hpol, if_neg hcond]
        rw [hnsB v]; exact h2 v
      · intro v
        simp only [plStep, hpol, if_neg hcond]
        rw [hnsB v, hkeep v]; exact h3 v
      · simp only [plStep, hpol, if_neg hcond]; exact h4
      · simp only [plStep, hpol, if_neg hcond]; exact h5
    · have hcond : b ≠ decide (0 < l) := hbe
      have hlp : litPos l = !b := by
        have hne : ¬b = litPos l := by simpa [litPos] using hbe
        cases hx : litPos l <;> cases hy : b <;> simp_all
      refine ⟨?_, ?_, ?_, ?_, ?_⟩
      · intro v
        simp only [plStep, hpol, if_pos hcond]
        exact hpolGoal v
      · intro v
        simp only [plStep, hpol, if_pos hcond]
        rw [hnsB v]; exact h2 v
      · intro v
        simp only [plStep, hpol, if_pos hcond]
        rw [elemD_eraseD h5, h3 v, hnsB v]
        by_cases hv : l.natAbs = v
        · subst hv
          have hdv : decide (l.natAbs = l.natAbs) = true := by simp
          have hprod : (fwith (p ++ [l]) l.natAbs true &&
              fwith (p ++ [l]) l.natAbs false) = true := by
            rw [hfw, hfw, hdv]
            cases hb2 : b with
            | true =>
              rw [hb2] at hwb hlp
              simp [hwb, hlp]
            | false =>
              rw [hb2] at hwb hlp
              simp [hwb, hlp]
          rw [hprod]
          simp
        · have hd : decide (v = l.natAbs) = false := by
            simp only [decide_eq_false_iff_not]
            intro hh
            exact hv hh.symm
          have hwold : ∀ s, fwith (p ++ [l]) v s = fwith p v s := by
            intro s; rw [hfw]; simp [hv]
          rw [hwold true, hwold false, hd]
          simp
      · simp only [plStep, hpol, if_pos hcond]; exact h4
      · simp only [plStep, hpol, if_pos hcond]
        exact nodup_eraseD _ h5

lemma plFold_inv {symT : Bool} {sy : List Nat} :
    ∀ (rest : List Int) (p : List Int) (st : ScanSt),
      ScanInv symT sy p st →
      ScanInv symT sy (p ++ rest) (rest.foldl (plStep symT) st)
  | [], p, st, h => by simpa using h
  | l :: rest, p, st, h => by
    have h1 := plStep_inv l h
    have h2 := plFold_inv rest (p ++ [l]) (plStep symT st l) h1
    simpa using h2

lemma plScanClause_inv {symT : Bool} {sy : List Nat} {p : List Int} {st : ScanSt}
    (c : Clause) (h : ScanInv symT sy p st) :
    ScanInv symT sy (p ++ c) (plScanClause symT st c) :=
  plFold_inv c p st h

lemma plScan_inv {symT : Bool} {sy : List Nat} :
    ∀ (cnf : List Clause) (p : List Int) (st : ScanSt),
      ScanInv symT sy p st →
      ScanInv symT sy (p ++ joinC cnf) (plScan symT st cnf)
  | [], p, st, h => by simpa [joinC, plScan] using h
  | c :: cs, p, st, h => by
    have h1 := plScanClause_inv c h
    have h2 := plScan_inv cs (p ++ c) (plScanClause symT st c) h1
    have h3 : plScan symT st (c :: cs) = plScan symT (plScanClause symT st c) cs := by
      simp [plScan]
    rw [h3]
    simpa [joinC, List.append_assoc] using h2

lemma ScanInv_init (symT : Bool) (sy : List Nat) (hnd : nodupD sy = true) :
    ScanInv symT sy []
      { pol := [], newSymb := if symT then sy else [],
        pures := if symT then sy else [] } := by
  refine ⟨?_, ?_, ?_, ?_, ?_⟩
  · intro v; simp [mlookup, ffirst]
  · intro v
    cases symT with
    | true => simp [nsB]
    | false => simp [nsB, elemD, foccurs]
  · intro v
    cases symT with
    | true => simp [nsB, fwith]
    | false => simp [nsB, elemD, foccurs, fwith]
  · cases symT with
    | true => simpa using hnd
    | false => simp [nodupD]
  · cases symT with
    | true => simpa using hnd
    | false => simp [nodupD]

lemma occursIn_joinC (cnf : List Clause) (v : Nat) :
    occursIn cnf v = foccurs (joinC cnf) v := by
  induction cnf with
  | nil => simp [occursIn, joinC, foccurs]
  | cons c cs ih =>
    simp only [occursIn, List.any_cons] at ih ⊢
    simp only [joinC, foccurs_append, ih]

lemma occursWith_joinC (cnf : List Clause) (v : Nat) (s : Bool) :
    occursWith cnf v s = fwith (joinC cnf) v s := by
  induction cnf with
  | nil => simp [occursWith, joinC, fwith]
  | cons c cs ih =>
    simp only [occursWith, List.any_cons] at ih ⊢
    simp only [joinC, fwith_append, ih]

lemma assignPures_spec :
    ∀ (ps : List Nat) (pol : Model) (m : Model),
      nodupD ps = true →
      (∀ v, elemD v ps = true → (mlookup pol v).isSome = true) →
      ∃ m', assignPures ps pol m = .ok m' ∧
        (∀ v, elemD v ps = true → mlookup m' v = mlookup pol v) ∧
        (∀ v, elemD v ps = false → mlookup m' v = mlookup m v)
  | [], pol, m, _, _ => by
    refine ⟨m, rfl, ?_, ?_⟩
    · intro v hv; simp [elemD] at hv
    · intro v _; rfl
  | v :: vs, pol, m, hnd, hsome => by
    have hx : elemD v vs = false ∧ nodupD vs = true := by
      simpa [nodupD, Bool.and_eq_true, Bool.not_eq_true'] using hnd
    have hvhead : elemD v (v :: vs) = true := by simp [elemD]
    have hb := hsome v hvhead
    cases hbv : mlookup pol v with
    | none => rw [hbv] at hb; cases hb
    | some b =>
      have hsome' : ∀ w, elemD w vs = true → (mlookup pol w).isSome = true := by
        intro w hw
        apply hsome
        by_cases hvw : v = w <;> simp [elemD, hvw, hw]
      obtain ⟨m', hok, hin, hout⟩ :=
        assignPures_spec vs pol (mupdate m v b) hx.2 hsome'
      refine ⟨m', ?_, ?_, ?_⟩
      · simp only [assignPures, hbv]
        exact hok
      · intro w hw
        by_cases hvw : v = w
        · subst hvw
          rw [hout v hx.1, mlookup_mupdate_self, hbv]
        · have hw' : elemD w vs = true := by
            simpa [elemD, hvw] using hw
          exact hin w hw'
      · intro w hw
        have hvw : ¬v = w := by
          intro hh
          rw [← hh] at hw
          simp [elemD] at hw
        have hw' : elemD w vs = false := by
          simpa [elemD, hvw] using hw
        rw [hout w hw', mlookup_mupdate_ne m (fun hh => hvw hh.symm) b]

/-- Master characterisation of `pure_literal` on a non-empty clause set
whose symbol argument satisfies the contract's domain assumption: the
returned clause set drops exactly the clauses holding a pure variable,
the returned symbol set is the domain minus the pure variables, every
pure variable is (re)assigned in the model to its occurring polarity,
and all other model entries are untouched. -/
lemma pure_literal_spec (cnf : List Clause) (symbols : Option (List Nat)) (model : Model)
    (hsy : symbolsGood cnf symbols) (hne : cnf.isEmpty = false) :
    ∃ ns m',
      pure_literal cnf symbols model =
        .ok (some (cnf.filter (fun c => !c.any (fun l => pureB cnf l.natAbs))),
             some ns, m') ∧
      (∀ v, elemD v ns = (occursIn cnf v && !pureB cnf v)) ∧
      (∀ v, pureB cnf v = true → mlookup m' v = some (occursWith cnf v true)) ∧
      (∀ v, pureB cnf v = false → mlookup m' v = mlookup model v) := by
  have hnd : nodupD (symbols.getD []) = true := by
    cases symbols with
    | none => rfl
    | some l =>
      have hsy' : l ≠ [] ∧ nodupD l = true ∧ ∀ v, elemD v l = occursIn cnf v := hsy
      exact hsy'.2.1
  have hns : ∀ v, nsB (symbolsTruthy symbols) (symbols.getD []) (joinC cnf) v =
      occursIn cnf v := by
    cases symbols with
    | none =>
      intro v; simp [nsB, symbolsTruthy, occursIn_joinC]
    | some l =>
      have hsy' : l ≠ [] ∧ nodupD l = true ∧ ∀ v, elemD v l = occursIn cnf v := hsy
      intro v
      have hT : symbolsTruthy (some l) = true := by
        cases l with
        | nil => exact absurd rfl hsy'.1
        | cons a as => simp [symbolsTruthy]
      simp only [nsB, hT, if_true, Option.getD_some]
      exact hsy'.2.2 v
  have hinv : ScanInv (symbolsTruthy symbols) (symbols.getD []) (joinC cnf)
      (plStState cnf symbols) := by
    have h0 := ScanInv_init (symbolsTruthy symbols) (symbols.getD []) hnd
    have h1 := plScan_inv cnf [] (plInitSt symbols) h0
    simpa using h1
  obtain ⟨hpol, hns', hpure', hndns, hndp⟩ := hinv
  have hkey : ∀ v, elemD v (plStState cnf symbols).pures = pureB cnf v := by
    intro v
    rw [hpure' v, hns v, ← occursWith_joinC, ← occursWith_joinC]
    rfl
  have hsome : ∀ v, elemD v (plStState cnf symbols).pures = true →
      (mlookup (plStState cnf symbols).pol v).isSome = true := by
    intro v hv
    rw [hkey v] at hv
    have hocc : occursIn cnf v = true := by
      simp only [pureB, Bool.and_eq_true] at hv
      exact hv.1
    rw [hpol v]
    exact ffirst_isSome_of_foccurs (by rw [← occursIn_joinC]; exact hocc)
  obtain ⟨m', hok, hin, hout⟩ :=
    assignPures_spec (plStState cnf symbols).pures (plStState cnf symbols).pol
      model hndp hsome
  refine ⟨(plStState cnf symbols).newSymb.filter
      (fun v => !elemD v (plStState cnf symbols).pures), m', ?_, ?_, ?_, ?_⟩
  · unfold pure_literal
    rw [hne]
    simp only [Bool.false_eq_true, if_false, hok]
    have hfilter :
        (cnf.filter (fun c => !c.any (fun l => elemD l.natAbs (plStState cnf symbols).pures))) =
        cnf.filter (fun c => !c.any (fun l => pureB cnf l.natAbs)) := by
      simp only [hkey]
    rw [hfilter]
  · intro v
    rw [elemD_filter, hns' v, hns v, hkey v]
  · intro v hv
    have hp : elemD v (plStState cnf symbols).pures = true := by rw [hkey v]; exact hv
    rw [hin v hp, hpol v]
    have hocc : foccurs (joinC cnf) v = true := by
      rw [← occursIn_joinC]
      simp only [pureB, Bool.and_eq_true] at hv
      exact hv.1
    have hpd : fwith (joinC cnf) v true = false ∨ fwith (joinC cnf) v false = false := by
      rw [← occursWith_joinC, ← occursWith_joinC]
      cases hT : occursWith cnf v true with
      | false => exact Or.inl rfl
      | true =>
        cases hF : occursWith cnf v false with
        | false => exact Or.inr rfl
        | true => simp [pureB, hT, hF] at hv
    rw [pure_ffirst hocc hpd, ← occursWith_joinC]
  · intro v hv
    have hp : elemD v (plStState cnf symbols).pures = false := by rw [hkey v]; exact hv
    exact hout v hp

/-! ## Lemmas about the loader -/

lemma parseClauses_bound :
    ∀ (lines : List (List Char)) (buffer : List Char) (nbLit : Int)
      (cnf : List Clause) (nbClauses : Int) (out : List Clause),
      (∀ c ∈ cnf, ∀ l ∈ c, (l.natAbs : Int) ≤ nbLit) →
      parseClauses lines buffer nbLit cnf nbClauses = .ok out →
      ∀ c ∈ out, ∀ l ∈ c, (l.natAbs : Int) ≤ nbLit
  | [], buffer, nbLit, cnf, nbClauses, out, hinv, hp => by
    simp only [parseClauses] at hp
    cases hp
    exact hinv
  | line :: rest, buffer, nbLit, cnf, nbClauses, out, hinv, hp => by
    simp only [parseClauses] at hp
    by_cases hs : (stripChars line).isEmpty = true
    · rw [if_pos hs] at hp
      exact parseClauses_bound rest _ _ _ _ _ hinv hp
    · rw [if_neg hs] at hp
      by_cases hterm : ((stripChars line).getLast? == some '0') = true
      · rw [if_pos hterm] at hp
        cases hts : parseToks (splitWS (rstripZero (buffer ++ stripChars line))) with
        | none => rw [hts] at hp; exact Except.noConfusion hp
        | some lits =>
          rw [hts] at hp
          have hp2 : (if (lits.any fun l => decide ((l.natAbs : Int) > nbLit)) = true
              then Except.error ()
              else if ((if elemD lits cnf then cnf else cnf ++ [lits]).length : Int) ≥ nbClauses
                then Except.ok (if elemD lits cnf then cnf else cnf ++ [lits])
                else parseClauses rest [] nbLit
                  (if elemD lits cnf then cnf else cnf ++ [lits]) nbClauses)
              = Except.ok out := hp
          clear hp
          by_cases hbad : (lits.any fun l => decide ((l.natAbs : Int) > nbLit)) = true
          · rw [if_pos hbad] at hp2; exact Except.noConfusion hp2
          · rw [if_neg hbad] at hp2
            have hlit : ∀ l ∈ lits, (l.natAbs : Int) ≤ nbLit := by
              intro l hl
              simp only [List.any_eq_true, decide_eq_true_eq, not_exists] at hbad
              have := hbad l
              simp only [hl, true_and, not_lt] at this
              exact this
            have hinv1 : ∀ c ∈ (if elemD lits cnf then cnf else cnf ++ [lits]),
                ∀ l ∈ c, (l.natAbs : Int) ≤ nbLit := by
              by_cases hdup : elemD lits cnf = true
              · rw [if_pos hdup]; exact hinv
              · rw [if_neg hdup]
                intro c hc
                rcases List.mem_append.mp hc with h | h
                · exact hinv c h
                · have hc' : c = lits := by simpa using h
                  subst hc'; exact hlit
            by_cases hlen :
                (((if elemD lits cnf then cnf else cnf ++ [lits]).length : Int) ≥ nbClauses)
            · rw [if_pos hlen] at hp2
              cases hp2
              exact hinv1
            · rw [if_neg hlen] at hp2
              exact parseClauses_bound rest _ _ _ _ _ hinv1 hp2
      · rw [if_neg hterm] at hp
        exact parseClauses_bound rest _ _ _ _ _ hinv hp

lemma parseClauses_nodup :
    ∀ (lines : List (List Char)) (buffer : List Char) (nbLit : Int)
      (cnf : List Clause) (nbClauses : Int) (out : List Clause),
      nodupD cnf = true →
      parseClauses lines buffer nbLit cnf nbClauses = .ok out →
      nodupD out = true
  | [], buffer, nbLit, cnf, nbClauses, out, hinv, hp => by
    simp only [parseClauses] at hp
    cases hp
    exact hinv
  | line :: rest, buffer, nbLit, cnf, nbClauses, out, hinv, hp => by
    simp only [parseClauses] at hp
    by_cases hs : (stripChars line).isEmpty = true
    · rw [if_pos hs] at hp
      exact parseClauses_nodup rest _ _ _ _ _ hinv hp
    · rw [if_neg hs] at hp
      by_cases hterm : ((stripChars line).getLast? == some '0') = true
      · rw [if_pos hterm] at hp
        cases hts : parseToks (splitWS (rstripZero (buffer ++ stripChars line))) with
        | none => rw [hts] at hp; exact Except.noConfusion hp
        | some lits =>
          rw [hts] at hp
          have hp2 : (if (lits.any fun l => decide ((l.natAbs : Int) > nbLit)) = true
              then Except.error ()
              else if ((if elemD lits cnf then cnf else cnf ++ [lits]).length : Int) ≥ nbClauses
                then Except.ok (if elemD lits cnf then cnf else cnf ++ [lits])
                else parseClauses rest [] nbLit
                  (if elemD lits cnf then cnf else cnf ++ [lits]) nbClauses)
              = Except.ok out := hp
          clear hp
          by_cases hbad : (lits.any fun l => decide ((l.natAbs : Int) > nbLit)) = true
          · rw [if_pos hbad] at hp2; exact Except.noConfusion hp2
          · rw [if_neg hbad] at hp2
            have hinv1 : nodupD (if elemD lits cnf then cnf else cnf ++ [lits]) = true := by
              by_cases hdup : elemD lits cnf = true
              · rw [if_pos hdup]; exact hinv
              · rw [if_neg hdup]
                exact nodup_append_single hinv (by simpa using hdup)
            by_cases hlen :
                (((if elemD lits cnf then cnf else cnf ++ [lits]).length : Int) ≥ nbClauses)
            · rw [if_pos hlen] at hp2
              cases hp2
              exact hinv1
            · rw [if_neg hlen] at hp2
              exact parseClauses_nodup rest _ _ _ _ _ hinv1 hp2
      · rw [if_neg hterm] at hp
        exact parseClauses_nodup rest _ _ _ _ _ hinv hp

lemma parse_file_inv {lines : List (List Char)} {cnf : List Clause}
    {nc nl : Int} {w : Bool} (hp : parse_file lines = .ok (cnf, nc, nl, w)) :
    ∃ h rest, lines = h :: rest ∧ parseClauses rest [] nl [] nc = .ok cnf := by
  cases lines with
  | nil => simp [parse_file] at hp
  | cons h rest =>
    refine ⟨h, rest, rfl, ?_⟩
    simp only [parse_file] at hp
    cases hph : parseHeader h with
    | none => rw [hph] at hp; exact Except.noConfusion hp
    | some p =>
      rw [hph] at hp
      have hp2 : (match parseClauses rest [] p.2 [] p.1 with
          | Except.error e => Except.error (ε := Unit) e
          | Except.ok cnf0 =>
            Except.ok (cnf0, p.1, p.2, decide ((cnf0.length : Int) < p.1)))
          = Except.ok (cnf, nc, nl, w) := hp
      cases hpc : parseClauses rest [] p.2 [] p.1 with
      | error e => rw [hpc] at hp2; exact Except.noConfusion hp2
      | ok cnf0 =>
        rw [hpc] at hp2
        simp only [Except.ok.injEq, Prod.mk.injEq] at hp2
        obtain ⟨h1, h2, h3, _⟩ := hp2
        subst h1; subst h2; subst h3
        exact hpc

/-! ## Claim theorems -/

/-- Claim C1: the spec demands that the contradictory pair `{1}`, `{-1}`
(declaredCount 2, maxVar 1) be reported unsatisfiable.  Evaluating the
embedded `DPLL` shows the code instead returns `(True, {1: False})`:
unit propagation assigns variable 1 and removes `{1}`, then
`pure_literal` sees the lone remaining clause `{-1}`, overwrites
`model[1]` with `False` and deletes the clause, and the empty residue is
reported satisfiable.  (The sign of the surviving clause depends only on
which unit clause the set scan meets first; either way the outcome is
satisfiable.) -/
theorem DPLL_contradictory_pair_returns_sat :
    DPLLf 10 [[1], [-1]] none [] = some (Res.satModel, [(1, false)], [[-1]]) := rfl

/-- Claim C2: the spec demands round-trip soundness — every model returned
with a satisfiable verdict makes at least one literal of every original
clause true.  On `{1}, {-1,2}, {-1,-2}` the embedded `DPLL` answers
satisfiable with model `{1: False, 2: False}`, and re-checking that model
against the original clause set (`litSat` literal by literal) fails on
clause `{1}`. -/
theorem DPLL_roundtrip_soundness_fails :
    DPLLf 10 [[1], [-1, 2], [-1, -2]] none [] =
      some (Res.satModel, [(1, false), (2, false)], [[-1, -2]]) ∧
    ([[1], [-1, 2], [-1, -2]] : List Clause).all
      (fun c => c.any (litSat [(1, false), (2, false)])) = false := ⟨rfl, rfl⟩

/-- Claim C3: the spec demands that after branching on a variable with
value true, an unsatisfiable verdict from that recursion leads to the
false branch being explored.  On `{1,2}, {-1,-2}` the top-level call
branches on variable 1; its true-branch recursion (the first conjunct:
same clauses, symbols `{1,2}`, model `{1: True}`, one fuel step less)
returns `(False, {1: True, 2: True})` — but the tuple is truthy in the
Python `if result:`, so the top-level call (second conjunct) returns
`(True, {1: True, 2: True})` without ever assigning the variable false. -/
theorem DPLL_true_branch_unsat_returns_sat :
    DPLLf 9 [[1, 2], [-1, -2]] (some [1, 2]) [(1, true)] =
      some (Res.unsatModel, [(1, true), (2, true)], [[-1, -2]]) ∧
    DPLLf 10 [[1, 2], [-1, -2]] none [] =
      some (Res.satModel, [(1, true), (2, true)], [[1, 2], [-1, -2]]) := ⟨rfl, rfl⟩

/-- Claim C4: the spec demands that `DPLL` always return the tri-state
`Satisfiable(model)` or `Unsatisfiable`.  On `{1}, {2}, {-1,-2}, {1,2}`
the embedded code instead falls off the end of the branching loop and
returns Python `None` (`Res.pyNone`): after the units force 1 and 2, the
remaining clauses have no pure literal, and `symbols - model.keys()` is
empty while `len(model) ≠ len(symbols)` never triggered because
`symbols` was still `None` at the length check. -/
theorem DPLL_returns_python_none :
    DPLLf 10 [[1], [2], [-1, -2], [1, 2]] none [] =
      some (Res.pyNone, [(1, true), (2, true)], [[-1, -2], [1, 2]]) := rfl

/-- Claim C5: the spec demands token-safe clause termination — only a
line whose last whitespace-delimited token is `0` ends a clause, and
exactly that token is removed.  The code checks `endswith("0")` on the
raw characters and removes the terminator with `rstrip("0")`: for the
source `"1 20"` / clause line `"1 20"`, the line terminates the clause
(its last token is `20`, not `0`) and the trailing digit of literal 20
is stripped, loading the clause `(1, 2)`. -/
theorem loader_charwise_zero_strip :
    parse_file (linesOf ["1 20", "1 20"]) = .ok ([[1, 2]], 1, 20, false) := rfl

/-- Claim C6 counterexample: the claim says loading fails whenever a
literal violates `1 ≤ |literal| ≤ maxVar`.  The code only checks the
upper bound, so the clause line `"0 2 0"` (with the leading `0` token)
loads successfully as the clause `(0, 2)` containing literal 0, whose
absolute value violates the claimed lower bound. -/
theorem parse_file_accepts_literal_zero :
    parse_file (linesOf ["1 3", "0 2 0"]) = .ok ([[0, 2]], 1, 3, false) ∧
    ¬(1 ≤ (0 : Int).natAbs) := ⟨rfl, by decide⟩

/-- Claim C6 as amended: whenever `parse_file` succeeds, every literal of
every loaded clause satisfies `|literal| ≤ maxVar` (upper bound only;
the lower bound `1 ≤ |literal|` is not enforced). -/
theorem parse_file_literals_within_bound (lines : List (List Char))
    (cnf : List Clause) (nc nl : Int) (w : Bool)
    (hp : parse_file lines = .ok (cnf, nc, nl, w)) :
    ∀ c ∈ cnf, ∀ l ∈ c, (l.natAbs : Int) ≤ nl := by
  obtain ⟨h, rest, hl, hpc⟩ := parse_file_inv hp
  refine parseClauses_bound rest [] nl [] nc cnf ?_ hpc
  intro c hc
  simp at hc

/-- Witness for `parse_file_literals_within_bound` at the source
`"1 2"` / `"1 -2 0"`, which loads as `[[1, -2]]`, instantiated at the
clause `[1, -2]` and its literal `-2`. -/
theorem parse_file_literals_within_bound_witness :
    (((-2 : Int).natAbs : Int)) ≤ 2 :=
  parse_file_literals_within_bound (linesOf ["1 2", "1 -2 0"]) [[1, -2]] 1 2 false rfl
    [1, -2] (by decide) (-2) (by decide)

/-- Claim C8 counterexample: the claim says clause identity is
insensitive to literal order, so a source repeating the clause `{1,2}`
as `"1 2 0"` and `"2 1 0"` with declaredCount 2 should collapse to one
clause and trigger the truncation observation.  The code stores clauses
as tuples: both survive, the loaded formula has size 2 and no truncation
warning fires. -/
theorem parse_file_dup_order_sensitive :
    parse_file (linesOf ["2 2", "1 2 0", "2 1 0"]) =
      .ok ([[1, 2], [2, 1]], 2, 2, false) ∧
    ([[1, 2], [2, 1]] : List Clause).length ≠ 1 := ⟨rfl, by decide⟩

/-- Claim C8 as amended: the loaded formula is duplicate-free with clause
identity taken as the literal *sequence* (the Python tuple): every
successful parse returns a `nodupD` clause list, and a source repeating
the textually identical clause `"1 2 0"` twice under declaredCount 2
loads as a single clause with the truncation observation triggered. -/
theorem parse_file_dup_collapse_tuplewise :
    (∀ lines cnf nc nl w, parse_file lines = .ok (cnf, nc, nl, w) → nodupD cnf = true) ∧
    parse_file (linesOf ["2 2", "1 2 0", "1 2 0"]) = .ok ([[1, 2]], 2, 2, true) := by
  constructor
  · intro lines cnf nc nl w hp
    obtain ⟨h, rest, hl, hpc⟩ := parse_file_inv hp
    exact parseClauses_nodup rest [] nl [] nc cnf rfl hpc
  · rfl

/-- Witness for `parse_file_dup_collapse_tuplewise` at the duplicate
source, whose loaded formula `[[1, 2]]` is duplicate-free. -/
theorem parse_file_dup_collapse_tuplewise_witness :
    nodupD ([[1, 2]] : List Clause) = true :=
  parse_file_dup_collapse_tuplewise.1 (linesOf ["2 2", "1 2 0", "1 2 0"]) [[1, 2]] 2 2 true rfl

/-- Claim C7: the contract of `pure_literal`.  On an empty clause set it
returns the sentinel `(None, None)` with the model untouched; otherwise —
provided `symbols` is either not yet established or is a non-empty
duplicate-free set equal to the variable domain of the clause set — every
pure variable is assigned into the model with the polarity making its
occurrences true, every clause containing a pure variable's literal is
removed, the returned symbol domain is the occurring variables minus the
pure ones (so for `symbols = None` it is derived from the clause set
itself), and no other model entry changes. -/
theorem pure_literal_contract (cnf : List Clause) (symbols : Option (List Nat))
    (model : Model) (hsy : symbolsGood cnf symbols) :
    (cnf = [] → pure_literal cnf symbols model = .ok (none, none, model)) ∧
    (cnf ≠ [] → ∃ ns m',
      pure_literal cnf symbols model =
        .ok (some (cnf.filter (fun c => !c.any (fun l => pureB cnf l.natAbs))),
             some ns, m') ∧
      (∀ v, pureB cnf v = true → mlookup m' v = some (occursWith cnf v true)) ∧
      (∀ v, elemD v ns = (occursIn cnf v && !pureB cnf v)) ∧
      (∀ v, pureB cnf v = false → mlookup m' v = mlookup model v)) := by
  constructor
  · intro h; subst h; rfl
  · intro h
    have hne : cnf.isEmpty = false := by
      cases cnf with
      | nil => exact absurd rfl h
      | cons c cs => rfl
    obtain ⟨ns, m', h1, h2, h3, h4⟩ := pure_literal_spec cnf symbols model hsy hne
    exact ⟨ns, m', h1, h3, h2, h4⟩

/-- Witness for `pure_literal_contract` on `{1}, {-1}, {2}` with
`symbols = None` (the lazily-derived-domain case): variable 2 is pure,
variable 1 is not. -/
theorem pure_literal_contract_witness :
    (([[1], [-1], [2]] : List Clause) = [] →
      pure_literal [[1], [-1], [2]] none [] = .ok (none, none, [])) ∧
    (([[1], [-1], [2]] : List Clause) ≠ [] → ∃ ns m',
      pure_literal [[1], [-1], [2]] none [] =
        .ok (some (([[1], [-1], [2]] : List Clause).filter
              (fun c => !c.any (fun l => pureB [[1], [-1], [2]] l.natAbs))),
             some ns, m') ∧
      (∀ v, pureB [[1], [-1], [2]] v = true →
        mlookup m' v = some (occursWith [[1], [-1], [2]] v true)) ∧
      (∀ v, elemD v ns = (occursIn [[1], [-1], [2]] v && !pureB [[1], [-1], [2]] v)) ∧
      (∀ v, pureB [[1], [-1], [2]] v = false → mlookup m' v = mlookup [] v)) :=
  pure_literal_contract [[1], [-1], [2]] none [] True.intro

/-- Helper: the symbol set `{1, 2}` is exactly the variable domain of the
clause set `{1}, {2}, {-2}`. -/
lemma symbolsGood_example : symbolsGood [[1], [2], [-2]] (some [1, 2]) := by
  refine ⟨by decide, by decide, ?_⟩
  intro w
  by_cases h1 : w = 1
  · subst h1; decide
  · by_cases h2 : w = 2
    · subst h2; decide
    · have n1 : ¬(1 = w) := fun hh => h1 hh.symm
      have n2 : ¬(2 = w) := fun hh => h2 hh.symm
      simp [elemD, occursIn, foccurs, n1, n2]

/-- Claim C10: `pure_literal` does not leave already-assigned variables
alone.  Whenever the supplied (domain-correct) symbol set contains a
variable `v` that is already present in the model and every occurrence
of `v` in the clause set has a single sign, the returned model maps `v`
to that occurring polarity — regardless of the value `v` previously had,
so a previously fixed assignment can be flipped (the witness flips
`model[1]` from `False` to `True`). -/
theorem pure_literal_reassigns (cnf : List Clause) (sy : List Nat) (model : Model)
    (v : Nat) (hsy : symbolsGood cnf (some sy)) (hmem : elemD v sy = true)
    (_hassigned : (mlookup model v).isSome = true)
    (hsingle : occursWith cnf v true = false ∨ occursWith cnf v false = false) :
    ∃ cl ns m',
      pure_literal cnf (some sy) model = .ok (some cl, some ns, m') ∧
      mlookup m' v = some (occursWith cnf v true) := by
  have hsy' : sy ≠ [] ∧ nodupD sy = true ∧ ∀ w, elemD w sy = occursIn cnf w := hsy
  have hocc : occursIn cnf v = true := by rw [← hsy'.2.2 v]; exact hmem
  have hne : cnf.isEmpty = false := by
    cases cnf with
    | nil => simp [occursIn] at hocc
    | cons c cs => rfl
  have hpure : pureB cnf v = true := by
    rcases hsingle with h | h <;> simp [pureB, hocc, h]
  obtain ⟨ns, m', h1, h2, h3, h4⟩ := pure_literal_spec cnf (some sy) model hsy hne
  exact ⟨_, ns, m', h1, h3 v hpure⟩

/-- Witness for `pure_literal_reassigns`: on `{1}, {2}, {-2}` with
symbols `{1, 2}` and model `{1: False}`, variable 1 is pure positive and
already assigned false; the returned model maps it to true. -/
theorem pure_literal_reassigns_witness :
    ∃ cl ns m',
      pure_literal [[1], [2], [-2]] (some [1, 2]) [(1, false)] =
        .ok (some cl, some ns, m') ∧
      mlookup m' 1 = some (occursWith [[1], [2], [-2]] 1 true) :=
  pure_literal_reassigns [[1], [2], [-2]] [1, 2] [(1, false)] 1
    symbolsGood_example (by decide) (by decide) (Or.inr (by decide))

/-- Claim C9: the spec demands a clean slate for every top-level search,
warning that Python default-argument memoization would leak state.  The
embedded code has exactly that leak: a first search on `{-1}` leaves the
shared default model as `{1: False}` (first conjunct); a second
top-level call on `{1}` started with that leaked model answers
`(True, {1: True})` (second conjunct), while the same call in a fresh
process answers `(True, None)` (third conjunct) — two different results
(fourth conjunct). -/
theorem DPLL_default_model_leak :
    DPLLf 10 [[-1]] none [] = some (Res.satNone, [(1, false)], []) ∧
    DPLLf 10 [[1]] none [(1, false)] = some (Res.satModel, [(1, true)], [[1]]) ∧
    DPLLf 10 [[1]] none [] = some (Res.satNone, [(1, true)], []) ∧
    DPLLf 10 [[1]] none [(1, false)] ≠ DPLLf 10 [[1]] none [] := by
  refine ⟨rfl, rfl, rfl, ?_⟩
  decide
